import Mathlib

/-!
# Verification of `AsyncSDKFrame/envManager.py`

A shallow embedding of the `EnvManager` class: a sqlite-backed key/value
configuration store plus a module registry.  The embedding models

* Python values that flow through the store (`PyValue`), as a mutual
  inductive over lists and dicts;
* Python's `json.dumps` (default options: `ensure_ascii=True`,
  separators `", "` / `": "`, `allow_nan=True`) and `json.loads`
  (strict scanner), at the character level;
* the two sqlite tables as association lists inside a `DB` state, with
  `none` standing for a table that does not exist yet (the
  `sqlite3.OperationalError: no such table` condition);
* every `EnvManager` method the claims touch.

Scope notes (documented model boundaries, none of which is exercised by a
claim's witness or counterexample):

* Finite floats are represented by their textual token
  (`PyValue.float tok`); their IEEE-754 value is not modelled and no
  theorem equates two of them.  The non-finite floats `inf`, `-inf` and
  `nan` are modelled exactly (`PyValue.floatConst`), since `str()` and
  `json.dumps`/`json.loads` treat them by fixed tokens.
* Lone UTF-16 surrogates (which CPython strings can hold but Lean
  `String` cannot) make the scanner fail where CPython would build a
  lone-surrogate string; no claim reaches that corner.
-/

/-- The non-finite Python floats, which have exact textual behaviour:
`str()` gives `"inf"`, `"-inf"`, `"nan"`; `json.dumps` gives `"Infinity"`,
`"-Infinity"`, `"NaN"`; `json.loads` accepts the latter three. -/
inductive FloatConst : Type where
  | inf
  | negInf
  | nan
deriving DecidableEq, Repr

mutual
/-- A Python value of one of the types `EnvManager` stores:
`None`, `bool`, `int`, `str`, `list`, `dict` (string keys), and floats.
Finite floats carry only their numeric token (see the header note). -/
inductive PyValue : Type where
  | pynone : PyValue
  | bool : Bool → PyValue
  | int : Int → PyValue
  | str : String → PyValue
  | float : String → PyValue
  | floatConst : FloatConst → PyValue
  | list : PyList → PyValue
  | dict : PyDict → PyValue

/-- A Python list of `PyValue`s. -/
inductive PyList : Type where
  | nil : PyList
  | cons : PyValue → PyList → PyList

/-- A Python dict with string keys, as an ordered association list
(Python dicts preserve insertion order). -/
inductive PyDict : Type where
  | nil : PyDict
  | cons : String → PyValue → PyDict → PyDict
end

/-! ## `json.dumps` (default options), at the character level -/

/-- Lowercase hexadecimal digit, as emitted by Python's `"%04x"` formatting. -/
def hexDigitChar (d : Nat) : Char :=
  if d < 10 then Char.ofNat (48 + d) else Char.ofNat (87 + d)

/-- The four hex digits of `n < 0x10000`, most significant first. -/
def quadChars (n : Nat) : List Char :=
  [hexDigitChar (n / 4096 % 16), hexDigitChar (n / 256 % 16),
   hexDigitChar (n / 16 % 16), hexDigitChar (n % 16)]

/-- One character as `json.dumps(..., ensure_ascii=True)` emits it inside a
string: `\` and `"` and the five C0 shorthands escaped by name, every other
character outside `0x20..0x7E` as `\uXXXX` (a surrogate pair above
`0xFFFF`), everything else literal. -/
def escapeOne (c : Char) : List Char :=
  if c = '\\' then ['\\', '\\']
  else if c = '"' then ['\\', '"']
  else if c.toNat = 8 then ['\\', 'b']
  else if c.toNat = 12 then ['\\', 'f']
  else if c = '\n' then ['\\', 'n']
  else if c = '\r' then ['\\', 'r']
  else if c = '\t' then ['\\', 't']
  else if 32 ≤ c.toNat ∧ c.toNat ≤ 126 then [c]
  else if c.toNat < 65536 then '\\' :: 'u' :: quadChars c.toNat
  else
    let n := c.toNat - 65536
    '\\' :: 'u' :: quadChars (55296 + n / 1024) ++
      '\\' :: 'u' :: quadChars (56320 + n % 1024)

/-- Escape a whole string body (no surrounding quotes). -/
def escapeAll : List Char → List Char
  | [] => []
  | c :: cs => escapeOne c ++ escapeAll cs

/-- A quoted, escaped JSON string literal. -/
def quoteString (s : String) : List Char :=
  '"' :: (escapeAll s.data ++ ['"'])

/-- Decimal digits of `n`, most significant first.  Structural on a fuel
argument so that it evaluates by kernel reduction; `decDigits` instantiates
the fuel with `n + 1`, which `decDigitsAux_fuel` shows is always enough. -/
def decDigitsAux : Nat → Nat → List Char
  | 0, _ => []
  | fuel + 1, n =>
    if n < 10 then [Char.ofNat (48 + n)]
    else decDigitsAux fuel (n / 10) ++ [Char.ofNat (48 + n % 10)]

/-- Decimal digit characters of a natural number, as `str()` prints it. -/
def decDigits (n : Nat) : List Char := decDigitsAux (n + 1) n

/-- The characters of `str(i)` for a Python `int`: optional minus sign and
decimal digits with no leading zero. -/
def intChars (i : Int) : List Char :=
  if i < 0 then '-' :: decDigits i.natAbs else decDigits i.natAbs

/-- `str(c)` for the non-finite floats. -/
def floatConstStr : FloatConst → String
  | .inf => "inf"
  | .negInf => "-inf"
  | .nan => "nan"

/-- The token `json.dumps` emits for the non-finite floats
(`allow_nan=True`, the default). -/
def floatConstToken : FloatConst → List Char
  | .inf => ['I', 'n', 'f', 'i', 'n', 'i', 't', 'y']
  | .negInf => ['-', 'I', 'n', 'f', 'i', 'n', 'i', 't', 'y']
  | .nan => ['N', 'a', 'N']

mutual
/-- `json.dumps(v)` with default options, as a character list.  Default
separators put `", "` between items and `": "` after keys. -/
def jdumpVal : PyValue → List Char
  | .pynone => 'n' :: 'u' :: 'l' :: 'l' :: []
  | .bool true => 't' :: 'r' :: 'u' :: 'e' :: []
  | .bool false => 'f' :: 'a' :: 'l' :: 's' :: 'e' :: []
  | .int i => intChars i
  | .str s => quoteString s
  | .float tok => tok.data
  | .floatConst c => floatConstToken c
  | .list xs => '[' :: (jdumpItems xs ++ [']'])
  | .dict xs => '{' :: (jdumpMembers xs ++ ['}'])

/-- The comma-separated items of a list (empty for `[]`). -/
def jdumpItems : PyList → List Char
  | .nil => []
  | .cons v .nil => jdumpVal v
  | .cons v (.cons w xs) => jdumpVal v ++ ',' :: ' ' :: jdumpItems (.cons w xs)

/-- The comma-separated `"key": value` members of a dict (empty for `{}`). -/
def jdumpMembers : PyDict → List Char
  | .nil => []
  | .cons k v .nil => quoteString k ++ ':' :: ' ' :: jdumpVal v
  | .cons k v (.cons k' v' xs) =>
    quoteString k ++ ':' :: ' ' :: jdumpVal v ++
      ',' :: ' ' :: jdumpMembers (.cons k' v' xs)
end

/-- `json.dumps(v)` as a `String`. -/
def jsonDumps (v : PyValue) : String := String.mk (jdumpVal v)

/-! ## `json.loads`, at the character level

Mirrors the pure-Python scanner of the `json` module in strict mode
(the default): JSON whitespace skipping where the scanner does it, the
`NUMBER_RE` grammar with the int/float split, strict string scanning with
`\uXXXX` and surrogate-pair recombination, and `dict(pairs)` semantics
(last duplicate key wins, first position kept) for objects. -/

/-- JSON whitespace, Python's `WHITESPACE = [ \t\n\r]*`. -/
def isJsonWs (c : Char) : Bool :=
  c = ' ' || c = '\t' || c = '\n' || c = '\r'

/-- Drop leading JSON whitespace. -/
def skipWs : List Char → List Char
  | [] => []
  | c :: cs => if isJsonWs c then skipWs cs else c :: cs

/-- Value of a hex digit; Python's `int(esc, 16)` accepts both cases. -/
def hexDigitVal (c : Char) : Option Nat :=
  if 48 ≤ c.toNat ∧ c.toNat ≤ 57 then some (c.toNat - 48)
  else if 97 ≤ c.toNat ∧ c.toNat ≤ 102 then some (c.toNat - 87)
  else if 65 ≤ c.toNat ∧ c.toNat ≤ 70 then some (c.toNat - 55)
  else none

/-- Value of a four-hex-digit escape body. -/
def quadVal (a b c d : Char) : Option Nat := do
  let va ← hexDigitVal a
  let vb ← hexDigitVal b
  let vc ← hexDigitVal c
  let vd ← hexDigitVal d
  pure (((va * 16 + vb) * 16 + vc) * 16 + vd)

/-- The named escapes of Python's `BACKSLASH` table. -/
def escDecode : Char → Option Char
  | '"' => some '"'
  | '\\' => some '\\'
  | '/' => some '/'
  | 'b' => some (Char.ofNat 8)
  | 'f' => some (Char.ofNat 12)
  | 'n' => some '\n'
  | 'r' => some '\r'
  | 't' => some '\t'
  | _ => none

/-- `py_scanstring` after the opening quote, strict mode: content up to the
closing quote with escapes decoded, raw control characters rejected.  A
lone surrogate (which CPython would keep as a lone-surrogate `str`) has no
Lean representation and makes the scan fail; see the header note. -/
def scanString : List Char → Option (List Char × List Char)
  | [] => none
  | '"' :: rest => some ([], rest)
  | '\\' :: 'u' :: a :: b :: c :: d :: rest =>
    match quadVal a b c d with
    | none => none
    | some n =>
      if 55296 ≤ n ∧ n ≤ 56319 then
        match rest with
        | '\\' :: 'u' :: a2 :: b2 :: c2 :: d2 :: rest2 =>
          match quadVal a2 b2 c2 d2 with
          | none => none
          | some m =>
            if 56320 ≤ m ∧ m ≤ 57343 then
              match scanString rest2 with
              | some (s, r) =>
                some (Char.ofNat (65536 + (n - 55296) * 1024 + (m - 56320)) :: s, r)
              | none => none
            else none
        | _ => none
      else if 56320 ≤ n ∧ n ≤ 57343 then none
      else
        match scanString rest with
        | some (s, r) => some (Char.ofNat n :: s, r)
        | none => none
  | '\\' :: e :: rest =>
    match escDecode e with
    | none => none
    | some ch =>
      match scanString rest with
      | some (s, r) => some (ch :: s, r)
      | none => none
  | c :: rest =>
    if c.toNat < 32 then none
    else
      match scanString rest with
      | some (s, r) => some (c :: s, r)
      | none => none

/-- The `\d` of `NUMBER_RE`. -/
def isDig (c : Char) : Bool := 48 ≤ c.toNat && c.toNat ≤ 57

/-- Split a maximal run of decimal digits off the front. -/
def digitSpan : List Char → List Char × List Char
  | [] => ([], [])
  | c :: cs =>
    if isDig c then
      let p := digitSpan cs
      (c :: p.1, p.2)
    else ([], c :: cs)

/-- Numeric value of a digit run. -/
def digitsNat (ds : List Char) : Nat :=
  ds.foldl (fun a c => a * 10 + (c.toNat - 48)) 0

/-- The `-?(0|[1-9]\d*)` integer part: `0` swallows no further digits. -/
def intPart : List Char → Option (List Char × List Char)
  | [] => none
  | c :: cs =>
    if c = '0' then some (['0'], cs)
    else if isDig c then some (digitSpan (c :: cs))
    else none

/-- The optional `(\.\d+)?` fraction part (consumed characters, remainder);
a dot not followed by a digit matches nothing. -/
def fracPart : List Char → List Char × List Char
  | [] => ([], [])
  | c :: r =>
    if c = '.' then
      match digitSpan r with
      | ([], _) => ([], c :: r)
      | (ds, r2) => ('.' :: ds, r2)
    else ([], c :: r)

/-- The optional `([eE][-+]?\d+)?` exponent part. -/
def expPart : List Char → List Char × List Char
  | [] => ([], [])
  | c :: r =>
    if c = 'e' ∨ c = 'E' then
      let sp : List Char × List Char :=
        match r with
        | '+' :: r1 => (['+'], r1)
        | '-' :: r1 => (['-'], r1)
        | _ => ([], r)
      match digitSpan sp.2 with
      | ([], _) => ([], c :: r)
      | (ds, r2) => (c :: sp.1 ++ ds, r2)
    else ([], c :: r)

/-- The leading `-?` of `NUMBER_RE`. -/
def negSplit : List Char → Bool × List Char
  | '-' :: r => (true, r)
  | cs => (false, cs)

/-- `NUMBER_RE` followed by Python's int/float split: an integer when
neither fraction nor exponent matched (`int(integer)`), otherwise a float
carrying its matched token (`float(integer + (frac or '') + (exp or ''))`;
the IEEE value is outside the model). -/
def scanNumber (cs : List Char) : Option (PyValue × List Char) :=
  let sn := negSplit cs
  match intPart sn.2 with
  | none => none
  | some (ids, cs2) =>
    let fp := fracPart cs2
    let ep := expPart fp.2
    if fp.1 = [] ∧ ep.1 = [] then
      some (.int (if sn.1 then -(digitsNat ids : Int) else (digitsNat ids : Int)), cs2)
    else
      some (.float (String.mk ((if sn.1 then ['-'] else []) ++ ids ++ fp.1 ++ ep.1)), ep.2)

/-- Python's `dict.__setitem__`: replace in place if the key is present
(keeping its position), otherwise append. -/
def PyDict.assign : PyDict → String → PyValue → PyDict
  | .nil, k, v => .cons k v .nil
  | .cons k' v' rest, k, v =>
    if k' = k then .cons k v rest else .cons k' v' (PyDict.assign rest k v)

/-- Helper for `dictBuild`: assign the pairs into `acc` left to right. -/
def dictBuildAux : PyDict → PyDict → PyDict
  | acc, .nil => acc
  | acc, .cons k v rest => dictBuildAux (acc.assign k v) rest

/-- `dict(pairs)`: last duplicate wins, first position kept. -/
def dictBuild (ps : PyDict) : PyDict := dictBuildAux .nil ps

mutual
/-- `_scan_once` at a non-whitespace position: CPython dispatches on the
next character with an `if`/`elif` chain (string literals via slice
comparison, mirrored with `take`/`drop`).  Structural on `fuel`, which
only decreases when nesting into a container, so any fuel above the
rendered length suffices. -/
def scanValue : Nat → List Char → Option (PyValue × List Char)
  | 0, _ => none
  | fuel + 1, cs =>
    match cs with
    | [] => none
    | c :: r =>
      if c = '"' then
        match scanString r with
        | some (s, r1) => some (.str (String.mk s), r1)
        | none => none
      else if c = '{' then
        match skipWs r with
        | '}' :: r2 => some (.dict .nil, r2)
        | r2 =>
          match scanMembers fuel r2 with
          | some (ps, r3) => some (.dict (dictBuild ps), r3)
          | none => none
      else if c = '[' then
        match skipWs r with
        | ']' :: r2 => some (.list .nil, r2)
        | r2 =>
          match scanItems fuel r2 with
          | some (vs, r3) => some (.list vs, r3)
          | none => none
      else if c = 'n' ∧ r.take 3 = ['u', 'l', 'l'] then some (.pynone, r.drop 3)
      else if c = 't' ∧ r.take 3 = ['r', 'u', 'e'] then some (.bool true, r.drop 3)
      else if c = 'f' ∧ r.take 4 = ['a', 'l', 's', 'e'] then some (.bool false, r.drop 4)
      else if c = 'N' ∧ r.take 2 = ['a', 'N'] then some (.floatConst .nan, r.drop 2)
      else if c = 'I' ∧ r.take 7 = ['n', 'f', 'i', 'n', 'i', 't', 'y'] then
        some (.floatConst .inf, r.drop 7)
      else if c = '-' ∧ r.take 8 = ['I', 'n', 'f', 'i', 'n', 'i', 't', 'y'] then
        some (.floatConst .negInf, r.drop 8)
      else if c = '-' ∨ isDig c = true then scanNumber (c :: r)
      else none

/-- `JSONArray`'s element loop, entered on a nonempty element list:
one value, then `]` to finish or `,` (with whitespace skipping) to
continue — CPython compares `nextchar` against the delimiters. -/
def scanItems : Nat → List Char → Option (PyList × List Char)
  | 0, _ => none
  | fuel + 1, cs =>
    match scanValue fuel cs with
    | none => none
    | some (v, r) =>
      match skipWs r with
      | [] => none
      | c :: r2 =>
        if c = ']' then some (.cons v .nil, r2)
        else if c = ',' then
          match scanItems fuel (skipWs r2) with
          | some (vs, r3) => some (.cons v vs, r3)
          | none => none
        else none

/-- `JSONObject`'s member loop, entered at a key's opening quote:
`"key"`, optional whitespace, `:`, optional whitespace, value, then `}` or
`,` (with whitespace skipping) to continue.  Returns the raw pair list;
`scanValue` applies `dictBuild` to it, as `JSONObject` ends with
`dict(pairs)`. -/
def scanMembers : Nat → List Char → Option (PyDict × List Char)
  | 0, _ => none
  | fuel + 1, cs =>
    match cs with
    | [] => none
    | c :: r =>
      if c = '"' then
        match scanString r with
        | none => none
        | some (kc, r1) =>
          match skipWs r1 with
          | [] => none
          | c2 :: r2 =>
            if c2 = ':' then
              match scanValue fuel (skipWs r2) with
              | none => none
              | some (v, r3) =>
                match skipWs r3 with
                | [] => none
                | c3 :: r4 =>
                  if c3 = '}' then some (.cons (String.mk kc) v .nil, r4)
                  else if c3 = ',' then
                    match scanMembers fuel (skipWs r4) with
                    | some (ps, r5) => some (.cons (String.mk kc) v ps, r5)
                    | none => none
                  else none
            else none
      else none
end

/-- `json.loads(s)`: skip leading whitespace, scan one value, and require
only whitespace to remain (otherwise Python raises "Extra data").
`none` models a raised `json.JSONDecodeError`. -/
def jsonParse (s : String) : Option PyValue :=
  match scanValue (s.data.length + 1) (skipWs s.data) with
  | some (v, r) => if skipWs r = [] then some v else none
  | none => none

/-! ## The database state and the `EnvManager` methods

The sqlite file holds two tables.  Each is modelled as an association
list wrapped in `Option`: `none` is a table that does not exist (a query
against it raises `sqlite3.OperationalError: no such table ...`), `some`
is the table's rows.  Row order in a sqlite table is not observable
through the keyed statements this code issues, so `INSERT OR REPLACE` is
modelled as replace-in-place-or-append. -/

/-- The `config(key TEXT PRIMARY KEY, value TEXT NOT NULL)` rows. -/
abbrev ConfigTable := List (String × String)

/-- One row of the `modules` table, columns in schema order. -/
structure ModuleRow where
  module_name : String
  status : Int
  version : String
  description : String
  author : String
  dependencies : String
  optional_dependencies : String
deriving DecidableEq, Repr

/-- The database file's state. -/
structure DB where
  config : Option ConfigTable
  modules : Option (List ModuleRow)
deriving DecidableEq, Repr

/-- A database file no statement has touched yet: neither table exists. -/
def emptyDB : DB := ⟨none, none⟩

/-- `SELECT value FROM config WHERE key = ?` then `fetchone`. -/
def lookupConfig : ConfigTable → String → Option String
  | [], _ => none
  | (k', v') :: rest, k => if k' = k then some v' else lookupConfig rest k

/-- `INSERT OR REPLACE INTO config (key, value) VALUES (?, ?)`. -/
def upsertConfig : ConfigTable → String → String → ConfigTable
  | [], k, v => [(k, v)]
  | (k', v') :: rest, k, v =>
    if k' = k then (k, v) :: rest else (k', v') :: upsertConfig rest k v

/-- `SELECT * FROM modules WHERE module_name = ?` then `fetchone`. -/
def lookupModule : List ModuleRow → String → Option ModuleRow
  | [], _ => none
  | row :: rest, name =>
    if row.module_name = name then some row else lookupModule rest name

/-- `INSERT OR REPLACE INTO modules (...) VALUES (...)`. -/
def upsertModule : List ModuleRow → ModuleRow → List ModuleRow
  | [], row => [row]
  | r :: rest, row =>
    if r.module_name = row.module_name then row :: rest
    else r :: upsertModule rest row

namespace EnvManager

/-- `_init_db`: two `CREATE TABLE IF NOT EXISTS` statements — an existing
table keeps its rows, a missing one comes into existence empty. -/
def init_db (db : DB) : DB :=
  { config := some (db.config.getD []),
    modules := some (db.modules.getD []) }

/-- The serialization step of `set` (line 63):
`json.dumps(value) if isinstance(value, (dict, list)) else str(value)`,
with `str()` unfolded per scalar shape. -/
def serializeValue : PyValue → String
  | .dict xs => jsonDumps (.dict xs)
  | .list xs => jsonDumps (.list xs)
  | .str s => s
  | .pynone => "None"
  | .bool true => "True"
  | .bool false => "False"
  | .int i => String.mk (intChars i)
  | .float tok => tok
  | .floatConst c => floatConstStr c

/-- The body of `get` once the `SELECT` has succeeded: decode the stored
text with `json.loads`, fall back to the raw string on `JSONDecodeError`,
and return `default` when no row matched. -/
def getDecoded (tbl : ConfigTable) (key : String) (dflt : PyValue) : PyValue :=
  match lookupConfig tbl key with
  | some s =>
    match jsonParse s with
    | some v => v
    | none => .str s
  | none => dflt

/-- `get(key, default=None)`.  When the `config` table is missing the
`SELECT` raises "no such table", the handler runs `_init_db()` and the
method retries itself once; the retry then reads the freshly created
(empty) table.  Returns the possibly initialized database together with
the result. -/
def get (db : DB) (key : String) (dflt : PyValue) : DB × PyValue :=
  match db.config with
  | some tbl => (db, getDecoded tbl key dflt)
  | none => (init_db db, getDecoded [] key dflt)

/-- `set(key, value)`: serialize, then `INSERT OR REPLACE`.  Unlike `get`
this method has no handler, so a missing `config` table raises
(`none`). -/
def set (db : DB) (key : String) (value : PyValue) : Option DB :=
  match db.config with
  | none => none
  | some tbl => some { db with config := some (upsertConfig tbl key (serializeValue value)) }

/-- `delete(key)`: `DELETE FROM config WHERE key = ?` (raises on a
missing table). -/
def delete (db : DB) (key : String) : Option DB :=
  match db.config with
  | none => none
  | some tbl => some { db with config := some (tbl.filter (fun r => r.1 != key)) }

/-- `set_module_status(module_name, status)`:
`UPDATE modules SET status = ? WHERE module_name = ?` — touches only
matching rows and never inserts. -/
def set_module_status (db : DB) (name : String) (status : Bool) : Option DB :=
  match db.modules with
  | none => none
  | some tbl =>
    some { db with modules := some (tbl.map (fun row =>
      if row.module_name = name then { row with status := if status then 1 else 0 }
      else row)) }

/-- `get_module_status(module_name)`:
`bool(result[0]) if result else True`. -/
def get_module_status (db : DB) (name : String) : Option Bool :=
  match db.modules with
  | none => none
  | some tbl =>
    some (match lookupModule tbl name with
      | some row => row.status != 0
      | none => true)

/-- The descriptor dicts `set_module` consumes: `module_info` with optional
`status` key and optional `info` sub-dict, each inner key optional, read
with `.get(..., default)`. -/
structure ModuleInfoDict where
  version : Option String := none
  description : Option String := none
  author : Option String := none
  dependencies : Option PyValue := none
  optional_dependencies : Option PyValue := none

/-- The outer descriptor dict. -/
structure ModuleDescriptor where
  status : Option Bool := none
  info : Option ModuleInfoDict := none

/-- The row `set_module` binds, before the `INSERT OR REPLACE`:
`int(module_info.get('status', True))`, string fields defaulting to `''`,
dependency lists `json.dumps(... .get(..., []))`. -/
def descriptorRow (name : String) (d : ModuleDescriptor) : ModuleRow :=
  let info := d.info.getD {}
  { module_name := name,
    status := if d.status.getD true then 1 else 0,
    version := info.version.getD "",
    description := info.description.getD "",
    author := info.author.getD "",
    dependencies := jsonDumps (info.dependencies.getD (.list .nil)),
    optional_dependencies := jsonDumps (info.optional_dependencies.getD (.list .nil)) }

/-- `set_module(module_name, module_info)`. -/
def set_module (db : DB) (name : String) (d : ModuleDescriptor) : Option DB :=
  match db.modules with
  | none => none
  | some tbl => some { db with modules := some (upsertModule tbl (descriptorRow name d)) }

/-- What `get_module` returns for a present row. -/
structure GotModule where
  status : Bool
  version : String
  description : String
  author : String
  dependencies : PyValue
  optional_dependencies : PyValue

/-- `json.loads(dependencies) if dependencies else []`: the empty string
(or sqlite `NULL`, which this code never writes) is falsy and yields `[]`;
otherwise the column text is decoded, and a decode failure would raise. -/
def decodeDeps (s : String) : Option PyValue :=
  if s = "" then some (.list .nil) else jsonParse s

/-- `get_module(module_name)`: `some none` is Python's `None` (no row);
the outer `none` is a raised error (missing table, or `JSONDecodeError`
from a dependency column this code never writes). -/
def get_module (db : DB) (name : String) : Option (Option GotModule) :=
  match db.modules with
  | none => none
  | some tbl =>
    match lookupModule tbl name with
    | none => some none
    | some row =>
      match decodeDeps row.dependencies, decodeDeps row.optional_dependencies with
      | some deps, some opt =>
        some (some ⟨row.status != 0, row.version, row.description, row.author, deps, opt⟩)
      | _, _ => none

/-- `remove_module(module_name)`:
`DELETE FROM modules WHERE module_name = ?`, then `cursor.rowcount > 0` —
whether any row was deleted. -/
def remove_module (db : DB) (name : String) : Option (DB × Bool) :=
  match db.modules with
  | none => none
  | some tbl =>
    some ({ db with modules := some (tbl.filter (fun r => r.module_name != name)) },
      tbl.any (fun r => r.module_name == name))

/-- What `__getattr__` produces: a value, or a raised `AttributeError`. -/
inductive AttrResult : Type where
  | value : PyValue → AttrResult
  | attributeError : AttrResult

/-- `__getattr__(key)` (reached only for names that are not real
attributes): `self.get(key)` inside `try/except KeyError`.  `get` never
raises `KeyError` — an absent key returns the default `None` — so the
`except` arm that would raise `AttributeError("配置项 ... 不存在")`
is unreachable; the embedding keeps the wrapper shape with the live
arm only. -/
def dunderGetattr (db : DB) (key : String) : DB × AttrResult :=
  let r := get db key .pynone
  (r.1, .value r.2)

/-- One binding of the executed `env.py` module namespace: either a value
of a type the importer recognizes, or some other Python object
(function, class, module, ...), which `isinstance(value, (dict, list,
str, int, float, bool))` rejects. -/
inductive EnvVal : Type where
  | val : PyValue → EnvVal
  | other : EnvVal

/-- `key.startswith("__")`, at the character level. -/
def dunderName (key : String) : Bool :=
  match key.data with
  | '_' :: '_' :: _ => true
  | _ => false

/-- The filter on one namespace item:
`not key.startswith("__") and isinstance(value, (dict, list, str, int,
float, bool))` — dunder names and unrecognized types are skipped, and so
is `None` (it is no instance of those six types). -/
def eligibleValue (key : String) (e : EnvVal) : Option PyValue :=
  if dunderName key then none
  else
    match e with
    | .val .pynone => none
    | .val v => some v
    | .other => none

/-- `load_env_file()`: a no-op when `env.py` is absent; otherwise `set`
each eligible binding in namespace order.  The source is the executed
module's `vars()` as a binding list. -/
def load_env_file (src : Option (List (String × EnvVal))) (db : DB) : Option DB :=
  match src with
  | none => some db
  | some entries =>
    entries.foldlM (fun d kv =>
      match eligibleValue kv.1 kv.2 with
      | some v => set d kv.1 v
      | none => some d) db

end EnvManager

/-! ## Python `==` on stored values

Needed where a claim's "equals" is Python equality rather than structural
identity: `nan == nan` is `False`, `True == 1` is `True`, dict comparison
ignores insertion order.  A finite-float token equals only itself (Python
`repr` is injective on floats, so distinct canonical tokens denote
distinct floats); the cross-type numeric equalities involving a finite
float (`1 == 1.0`) are outside the model and no claim uses them. -/

/-- `dict.__getitem__`-style lookup (first match; real dicts have unique
keys). -/
def PyDict.lookup : PyDict → String → Option PyValue
  | .nil, _ => none
  | .cons k' v' rest, k => if k' = k then some v' else PyDict.lookup rest k

/-- `len()` of a dict (entry count; real dicts have unique keys). -/
def PyDict.length : PyDict → Nat
  | .nil => 0
  | .cons _ _ rest => 1 + PyDict.length rest

mutual
/-- Python `==` on the modelled values. -/
def pyEq : PyValue → PyValue → Bool
  | .pynone, .pynone => true
  | .bool b, .bool b' => b == b'
  | .bool b, .int n => (if b then (1 : Int) else 0) == n
  | .int n, .bool b => n == (if b then (1 : Int) else 0)
  | .int n, .int n' => n == n'
  | .str s, .str s' => s == s'
  | .float t, .float t' => t == t'
  | .floatConst .inf, .floatConst .inf => true
  | .floatConst .negInf, .floatConst .negInf => true
  | .floatConst _, .floatConst _ => false
  | .list xs, .list ys => pyEqList xs ys
  | .dict xs, .dict ys => pyEqDict xs ys
  | _, _ => false

/-- Python list `==`: same length, pairwise equal. -/
def pyEqList : PyList → PyList → Bool
  | .nil, .nil => true
  | .cons v vs, .cons w ws => pyEq v w && pyEqList vs ws
  | _, _ => false

/-- Python dict `==`: same size and every key of the left maps to an
equal value on the right. -/
def pyEqDict (xs ys : PyDict) : Bool :=
  PyDict.length xs == PyDict.length ys && pyEqDictAll xs ys

/-- Each left entry has an equal counterpart on the right. -/
def pyEqDictAll : PyDict → PyDict → Bool
  | .nil, _ => true
  | .cons k v rest, ys =>
    match PyDict.lookup ys k with
    | some v' => pyEq v v' && pyEqDictAll rest ys
    | none => false
end

/-- A remainder that cannot extend a number token: empty, or headed by a
character that is neither a digit nor `.`/`e`/`E`.  All the continuations
the renderer produces (`,`, `]`, `}`, end of input) qualify. -/
def numStop : List Char → Bool
  | [] => true
  | c :: _ => !(isDig c || c = '.' || c = 'e' || c = 'E')

/-- Key membership in a dict. -/
def dContains : PyDict → String → Bool
  | .nil, _ => false
  | .cons k' _ rest, k => k' == k || dContains rest k

mutual
/-- Well-formed values: no finite-float tokens (their text is outside the
model) and no duplicate dict keys (impossible for a real Python dict). -/
def wfV : PyValue → Bool
  | .float _ => false
  | .list xs => wfL xs
  | .dict xs => wfD xs
  | _ => true

/-- All list elements well-formed. -/
def wfL : PyList → Bool
  | .nil => true
  | .cons v xs => wfV v && wfL xs

/-- Distinct keys at this level and well-formed values. -/
def wfD : PyDict → Bool
  | .nil => true
  | .cons k v xs => !dContains xs k && wfV v && wfD xs
end

/-- Dict concatenation (used only to reason about `dictBuild`). -/
def dAppend : PyDict → PyDict → PyDict
  | .nil, ys => ys
  | .cons k v rest, ys => .cons k v (dAppend rest ys)

/-- The separator-prefixed continuation of a nonempty item list. -/
def itemsSep : PyList → List Char
  | .nil => []
  | .cons w ys => ',' :: ' ' :: jdumpItems (.cons w ys)

/-- The separator-prefixed continuation of a nonempty member list. -/
def membersSep : PyDict → List Char
  | .nil => []
  | .cons k v ys => ',' :: ' ' :: jdumpMembers (.cons k v ys)

/-- The serialized `(key, value-text)` pairs the bootstrap import writes,
in namespace order. -/
def eligPairs (entries : List (String × EnvManager.EnvVal)) : List (String × String) :=
  entries.filterMap (fun kv => (EnvManager.eligibleValue kv.1 kv.2).map
    (fun v => (kv.1, EnvManager.serializeValue v)))

/-- Fold a pair list into the config table by upserts. -/
def applyPairs (ps : List (String × String)) (t : ConfigTable) : ConfigTable :=
  ps.foldl (fun t p => upsertConfig t p.1 p.2) t

/-- The last value a pair list writes for a key, if any. -/
def lastWrite : List (String × String) → String → Option String
  | [], _ => none
  | (k', s') :: ps, k =>
    match lastWrite ps k with
    | some s => some s
    | none => if k' = k then some s' else none

/-- `isinstance(value, (dict, list))` — the serializer's container test. -/
def isContainer : PyValue → Bool
  | .list _ => true
  | .dict _ => true
  | _ => false

/-- The C7 descriptor:
`{status: false, info: {version: "1.0", dependencies: ["a", "b"]}}`. -/
def d7 : EnvManager.ModuleDescriptor :=
  { status := some false,
    info := some { version := some "1.0",
                   dependencies := some (.list (.cons (.str "a") (.cons (.str "b") .nil))) } }

/-! ## Round-trip: `json.loads` inverts `json.dumps`

The layers below prove `jsonParse (jsonDumps v) = some v` for every
well-formed value (no finite-float tokens, no duplicate dict keys), the
engine behind the structured-value round-trip claims. -/

theorem char_toNat_lt (c : Char) : c.toNat < 1114112 := by
  rcases c.valid with h | ⟨_, h2⟩
  · have : c.toNat < 55296 := h
    omega
  · exact h2

theorem char_not_surrogate (c : Char) : ¬(55296 ≤ c.toNat ∧ c.toNat ≤ 57343) := by
  rcases c.valid with h | ⟨h1, _⟩
  · have : c.toNat < 55296 := h
    omega
  · have : 57343 < c.toNat := h1
    omega

theorem hexDigitVal_hexDigitChar : ∀ d : Nat, d < 16 → hexDigitVal (hexDigitChar d) = some d := by
  decide

theorem quadVal_quadChars (n : Nat) (h : n < 65536) :
    quadVal (hexDigitChar (n / 4096 % 16)) (hexDigitChar (n / 256 % 16))
      (hexDigitChar (n / 16 % 16)) (hexDigitChar (n % 16)) = some n := by
  have h16 : ∀ k : Nat, k % 16 < 16 := fun k => Nat.mod_lt _ (by omega)
  rw [quadVal, hexDigitVal_hexDigitChar _ (h16 _), hexDigitVal_hexDigitChar _ (h16 _),
    hexDigitVal_hexDigitChar _ (h16 _), hexDigitVal_hexDigitChar _ (h16 _)]
  show some (((n / 4096 % 16 * 16 + n / 256 % 16) * 16 + n / 16 % 16) * 16 + n % 16) = some n
  congr 1
  omega

theorem skipWs_not_ws {c : Char} (h : isJsonWs c = false) (t : List Char) :
    skipWs (c :: t) = c :: t := by
  simp [skipWs, h]

theorem decDigitsAux_fuel : ∀ f g n : Nat, n < f → n < g → decDigitsAux f n = decDigitsAux g n := by
  intro f
  induction f with
  | zero => omega
  | succ f ih =>
    intro g n hf hg
    match g, hg with
    | g + 1, _ =>
      by_cases h10 : n < 10
      · simp [decDigitsAux, h10]
      · have hd : n / 10 < f := by omega
        have hd' : n / 10 < g := by omega
        simp only [decDigitsAux, if_neg h10]
        rw [ih g (n / 10) hd hd']

theorem decDigits_unfold (n : Nat) :
    decDigits n = if n < 10 then [Char.ofNat (48 + n)]
      else decDigits (n / 10) ++ [Char.ofNat (48 + n % 10)] := by
  by_cases h10 : n < 10
  · simp [decDigits, decDigitsAux, h10]
  · simp only [decDigits, if_neg h10]
    show decDigitsAux (n + 1) n = _
    rw [decDigitsAux]
    simp only [if_neg h10]
    rw [decDigitsAux_fuel n (n / 10 + 1) (n / 10) (by omega) (by omega)]

theorem digitChar_toNat : ∀ d : Nat, d < 10 → (Char.ofNat (48 + d)).toNat = 48 + d := by
  decide

theorem digitChar_isDig : ∀ d : Nat, d < 10 → isDig (Char.ofNat (48 + d)) = true := by
  decide

theorem decDigits_all_dig (n : Nat) : ∀ c ∈ decDigits n, isDig c = true := by
  induction n using Nat.strongRecOn with
  | _ n ih =>
    rw [decDigits_unfold]
    by_cases h10 : n < 10
    · simp only [if_pos h10, List.mem_singleton]
      rintro c rfl
      exact digitChar_isDig n h10
    · simp only [if_neg h10, List.mem_append, List.mem_singleton]
      rintro c (hc | rfl)
      · exact ih (n / 10) (by omega) c hc
      · exact digitChar_isDig _ (Nat.mod_lt _ (by omega))

theorem decDigits_ne_nil (n : Nat) : decDigits n ≠ [] := by
  rw [decDigits_unfold]
  by_cases h10 : n < 10 <;> simp [h10]

theorem decDigits_head (n : Nat) (h : n ≠ 0) :
    ∃ c t, decDigits n = c :: t ∧ isDig c = true ∧ c ≠ '0' := by
  induction n using Nat.strongRecOn with
  | _ n ih =>
    rw [decDigits_unfold]
    by_cases h10 : n < 10
    · refine ⟨Char.ofNat (48 + n), [], by simp [h10], digitChar_isDig n h10, ?_⟩
      intro hc
      have : (Char.ofNat (48 + n)).toNat = 48 := by rw [hc]; rfl
      rw [digitChar_toNat n h10] at this
      omega
    · obtain ⟨c, t, hct, hdig, hz⟩ := ih (n / 10) (by omega) (by omega)
      exact ⟨c, t ++ [Char.ofNat (48 + n % 10)], by simp [h10, hct], hdig, hz⟩

theorem digitsNat_append_one (ds : List Char) (ch : Char) :
    digitsNat (ds ++ [ch]) = digitsNat ds * 10 + (ch.toNat - 48) := by
  simp [digitsNat, List.foldl_append]

theorem digitsNat_decDigits (n : Nat) : digitsNat (decDigits n) = n := by
  induction n using Nat.strongRecOn with
  | _ n ih =>
    rw [decDigits_unfold]
    by_cases h10 : n < 10
    · simp only [if_pos h10]
      show digitsNat ([] ++ [Char.ofNat (48 + n)]) = n
      rw [digitsNat_append_one, digitChar_toNat n h10]
      simp [digitsNat]
    · simp only [if_neg h10]
      rw [digitsNat_append_one, ih (n / 10) (by omega),
        digitChar_toNat _ (Nat.mod_lt _ (by omega))]
      omega

theorem digitSpan_stop {rest : List Char} (h : numStop rest = true) :
    digitSpan rest = ([], rest) := by
  match rest with
  | [] => rfl
  | c :: t =>
    simp only [numStop, Bool.not_eq_true', Bool.or_eq_false_iff, decide_eq_false_iff_not] at h
    simp [digitSpan, h.1.1.1]

theorem digitSpan_run (ds : List Char) (hds : ∀ c ∈ ds, isDig c = true)
    (rest : List Char) (hrest : digitSpan rest = ([], rest)) :
    digitSpan (ds ++ rest) = (ds, rest) := by
  induction ds with
  | nil => simpa using hrest
  | cons c t ih =>
    have hc : isDig c = true := hds c (by simp)
    have ht := ih (fun x hx => hds x (by simp [hx]))
    simp [digitSpan, hc, ht]

theorem negSplit_other {c : Char} (t : List Char) (h : c ≠ '-') :
    negSplit (c :: t) = (false, c :: t) := by
  unfold negSplit
  split
  · rename_i heq
    injection heq with h1 _
    exact absurd h1 h
  · rfl

theorem fracPart_stop {rest : List Char} (h : numStop rest = true) :
    fracPart rest = ([], rest) := by
  match rest with
  | [] => rfl
  | c :: t =>
    simp only [numStop, Bool.not_eq_true', Bool.or_eq_false_iff, decide_eq_false_iff_not] at h
    simp [fracPart, h.1.1.2]

theorem expPart_stop {rest : List Char} (h : numStop rest = true) :
    expPart rest = ([], rest) := by
  match rest with
  | [] => rfl
  | c :: t =>
    simp only [numStop, Bool.not_eq_true', Bool.or_eq_false_iff, decide_eq_false_iff_not] at h
    have : ¬(c = 'e' ∨ c = 'E') := by
      rintro (rfl | rfl)
      · exact h.1.2 rfl
      · exact h.2 rfl
    simp [expPart, this]

theorem isDig_facts {c : Char} (h : isDig c = true) :
    c ≠ '-' ∧ c ≠ '.' ∧ c ≠ 'e' ∧ c ≠ 'E' := by
  refine ⟨?_, ?_, ?_, ?_⟩ <;> (rintro rfl; exact absurd h (by decide))

theorem intPart_decDigits (n : Nat) (rest : List Char)
    (hrest : digitSpan rest = ([], rest)) :
    intPart (decDigits n ++ rest) = some (decDigits n, rest) := by
  by_cases h0 : n = 0
  · subst h0
    show intPart ('0' :: rest) = some (['0'], rest)
    simp [intPart]
  · obtain ⟨c, t, hct, hdig, hz⟩ := decDigits_head n h0
    rw [hct, List.cons_append]
    have hds : digitSpan (c :: (t ++ rest)) = (c :: t, rest) := by
      have := digitSpan_run (c :: t) (by rw [← hct]; exact decDigits_all_dig n) rest hrest
      rwa [List.cons_append] at this
    simp only [intPart, if_neg hz, if_pos hdig]
    rw [hds]

theorem scanNumber_intChars (i : Int) (rest : List Char) (h : numStop rest = true) :
    scanNumber (intChars i ++ rest) = some (.int i, rest) := by
  have hstop : digitSpan rest = ([], rest) := digitSpan_stop h
  by_cases hneg : i < 0
  · have harg : intChars i ++ rest = '-' :: (decDigits i.natAbs ++ rest) := by
      simp [intChars, hneg]
    rw [harg]
    have hsplit : negSplit ('-' :: (decDigits i.natAbs ++ rest))
        = (true, decDigits i.natAbs ++ rest) := rfl
    have hval : -(|i|) = i := by rw [abs_of_nonpos (by omega)]; ring
    simp only [scanNumber, hsplit, intPart_decDigits i.natAbs rest hstop,
      fracPart_stop h, expPart_stop h, digitsNat_decDigits]
    simp [hval]
  · have harg : intChars i ++ rest = decDigits i.natAbs ++ rest := by
      simp [intChars, hneg]
    have hsplit : negSplit (decDigits i.natAbs ++ rest)
        = (false, decDigits i.natAbs ++ rest) := by
      by_cases h0 : i.natAbs = 0
      · rw [h0]
        rfl
      · obtain ⟨c, t, hct, hdig, _⟩ := decDigits_head _ h0
        rw [hct, List.cons_append, negSplit_other _ (isDig_facts hdig).1]
    rw [harg]
    have hval : |i| = i := abs_of_nonneg (by omega)
    simp only [scanNumber, hsplit, intPart_decDigits i.natAbs rest hstop,
      fracPart_stop h, expPart_stop h, digitsNat_decDigits]
    simp [hval]

theorem scanString_u_basic (a b c d : Char) (n : Nat) (t : List Char)
    (hq : quadVal a b c d = some n) (hrange : n < 55296 ∨ 57343 < n) :
    scanString ('\\' :: 'u' :: a :: b :: c :: d :: t) =
      match scanString t with
      | some (s, r) => some (Char.ofNat n :: s, r)
      | none => none := by
  have h1 : ¬(55296 ≤ n ∧ n ≤ 56319) := by omega
  have h2 : ¬(56320 ≤ n ∧ n ≤ 57343) := by omega
  rw [scanString.eq_def]
  simp only [hq, if_neg h1, if_neg h2]

theorem scanString_u_pair (a b c d a2 b2 c2 d2 : Char) (n m : Nat) (t : List Char)
    (hq : quadVal a b c d = some n) (hq2 : quadVal a2 b2 c2 d2 = some m)
    (hn : 55296 ≤ n ∧ n ≤ 56319) (hm : 56320 ≤ m ∧ m ≤ 57343) :
    scanString ('\\' :: 'u' :: a :: b :: c :: d :: '\\' :: 'u' :: a2 :: b2 :: c2 :: d2 :: t) =
      match scanString t with
      | some (s, r) => some (Char.ofNat (65536 + (n - 55296) * 1024 + (m - 56320)) :: s, r)
      | none => none := by
  rw [scanString.eq_def]
  simp only [hq, if_pos hn, hq2, if_pos hm]

theorem scanString_escapeOne (c : Char) (t : List Char) :
    scanString (escapeOne c ++ t) =
      match scanString t with
      | some (s, r) => some (c :: s, r)
      | none => none := by
  rw [escapeOne]
  split_ifs with h1 h2 h3 h4 h5 h6 h7 h8 h9
  · subst h1
    rfl
  · subst h2
    rfl
  · have hc : Char.ofNat 8 = c := by
      have := Char.ofNat_toNat c
      rw [h3] at this
      exact this
    have hstep : scanString ('\\' :: 'b' :: t) =
        match scanString t with
        | some (s, r) => some (Char.ofNat 8 :: s, r)
        | none => none := rfl
    show scanString ('\\' :: 'b' :: t) = _
    rw [hstep, hc]
  · have hc : Char.ofNat 12 = c := by
      have := Char.ofNat_toNat c
      rw [h4] at this
      exact this
    have hstep : scanString ('\\' :: 'f' :: t) =
        match scanString t with
        | some (s, r) => some (Char.ofNat 12 :: s, r)
        | none => none := rfl
    show scanString ('\\' :: 'f' :: t) = _
    rw [hstep, hc]
  · subst h5
    rfl
  · subst h6
    rfl
  · subst h7
    rfl
  · show scanString (c :: t) = _
    rw [scanString.eq_def]
    split
    · rename_i heq
      simp at heq
    · rename_i heq
      injection heq with hc _
      exact absurd hc h2
    · rename_i heq
      injection heq with hc _
      exact absurd hc h1
    · rename_i heq
      injection heq with hc _
      exact absurd hc h1
    · rename_i heq
      injection heq with hc ht
      subst hc
      subst ht
      have hge : ¬c.toNat < 32 := by omega
      simp only [if_neg hge]
  · have hrange : c.toNat < 55296 ∨ 57343 < c.toNat := by
      have := char_not_surrogate c
      omega
    show scanString ('\\' :: 'u' :: hexDigitChar (c.toNat / 4096 % 16) ::
      hexDigitChar (c.toNat / 256 % 16) :: hexDigitChar (c.toNat / 16 % 16) ::
      hexDigitChar (c.toNat % 16) :: t) = _
    rw [scanString_u_basic _ _ _ _ c.toNat t (quadVal_quadChars c.toNat h9) hrange,
      Char.ofNat_toNat]
  · have hbig : 65536 ≤ c.toNat := by omega
    have hlt := char_toNat_lt c
    have hhi : 55296 ≤ 55296 + (c.toNat - 65536) / 1024 ∧
        55296 + (c.toNat - 65536) / 1024 ≤ 56319 := by omega
    have hlo : 56320 ≤ 56320 + (c.toNat - 65536) % 1024 ∧
        56320 + (c.toNat - 65536) % 1024 ≤ 57343 := by omega
    have hq1 := quadVal_quadChars (55296 + (c.toNat - 65536) / 1024) (by omega)
    have hq2 := quadVal_quadChars (56320 + (c.toNat - 65536) % 1024) (by omega)
    show scanString ('\\' :: 'u' :: hexDigitChar ((55296 + (c.toNat - 65536) / 1024) / 4096 % 16) ::
      hexDigitChar ((55296 + (c.toNat - 65536) / 1024) / 256 % 16) ::
      hexDigitChar ((55296 + (c.toNat - 65536) / 1024) / 16 % 16) ::
      hexDigitChar ((55296 + (c.toNat - 65536) / 1024) % 16) ::
      '\\' :: 'u' :: hexDigitChar ((56320 + (c.toNat - 65536) % 1024) / 4096 % 16) ::
      hexDigitChar ((56320 + (c.toNat - 65536) % 1024) / 256 % 16) ::
      hexDigitChar ((56320 + (c.toNat - 65536) % 1024) / 16 % 16) ::
      hexDigitChar ((56320 + (c.toNat - 65536) % 1024) % 16) :: t) = _
    rw [scanString_u_pair _ _ _ _ _ _ _ _ _ _ t hq1 hq2 hhi hlo]
    have harith : 65536 + (55296 + (c.toNat - 65536) / 1024 - 55296) * 1024 +
        (56320 + (c.toNat - 65536) % 1024 - 56320) = c.toNat := by omega
    rw [harith, Char.ofNat_toNat]

theorem scanString_escapeAll (cs : List Char) : ∀ t : List Char,
    scanString (escapeAll cs ++ '"' :: t) = some (cs, t) := by
  induction cs with
  | nil =>
    intro t
    rfl
  | cons c cs ih =>
    intro t
    rw [escapeAll, List.append_assoc, scanString_escapeOne, ih]

theorem dAppend_nil : ∀ xs : PyDict, dAppend xs .nil = xs
  | .nil => rfl
  | .cons k v rest => by rw [dAppend, dAppend_nil rest]

theorem dAppend_cons (k : String) (v : PyValue) (a b : PyDict) :
    dAppend (.cons k v a) b = .cons k v (dAppend a b) := rfl

theorem dAppend_assoc : ∀ a : PyDict, ∀ b c : PyDict,
    dAppend (dAppend a b) c = dAppend a (dAppend b c)
  | .nil, _, _ => rfl
  | .cons k v rest, b, c => by
    rw [dAppend_cons, dAppend_cons, dAppend_cons, dAppend_assoc rest b c]

theorem dContains_dAppend : ∀ a : PyDict, ∀ b : PyDict, ∀ k : String,
    dContains (dAppend a b) k = (dContains a k || dContains b k)
  | .nil, _, _ => rfl
  | .cons k' v rest, b, k => by
    rw [dAppend_cons, dContains, dContains_dAppend rest b k, dContains, Bool.or_assoc]

theorem assign_fresh : ∀ acc : PyDict, ∀ (k : String) (v : PyValue),
    dContains acc k = false → PyDict.assign acc k v = dAppend acc (.cons k v .nil)
  | .nil, _, _, _ => rfl
  | .cons k' v' rest, k, v, h => by
    rw [dContains, Bool.or_eq_false_iff] at h
    have hne : k' ≠ k := by
      intro he
      rw [he] at h
      simp at h
    rw [PyDict.assign, if_neg hne, dAppend_cons, assign_fresh rest k v h.2]

theorem dictBuildAux_fresh : ∀ xs : PyDict, ∀ acc : PyDict, wfD xs = true →
    (∀ k, dContains xs k = true → dContains acc k = false) →
    dictBuildAux acc xs = dAppend acc xs
  | .nil, acc, _, _ => by rw [dictBuildAux, dAppend_nil]
  | .cons k v rest, acc, hwf, hfresh => by
    rw [wfD, Bool.and_eq_true, Bool.and_eq_true, Bool.not_eq_true'] at hwf
    have hk : dContains acc k = false := hfresh k (by rw [dContains]; simp)
    have hfresh' : ∀ k', dContains rest k' = true →
        dContains (dAppend acc (.cons k v .nil)) k' = false := by
      intro k' hk'
      rw [dContains_dAppend, Bool.or_eq_false_iff]
      refine ⟨hfresh k' (by rw [dContains, hk']; simp), ?_⟩
      rw [dContains]
      have hne : (k == k') = false := by
        by_cases he : k = k'
        · rw [he] at hwf
          rw [hwf.1.1] at hk'
          exact absurd hk' (by simp)
        · simp [he]
      rw [hne]
      rfl
    rw [dictBuildAux, assign_fresh acc k v hk,
      dictBuildAux_fresh rest (dAppend acc (.cons k v .nil)) hwf.2 hfresh',
      dAppend_assoc, dAppend_cons]
    rfl

theorem dictBuild_wf (xs : PyDict) (hwf : wfD xs = true) : dictBuild xs = xs := by
  rw [dictBuild, dictBuildAux_fresh xs .nil hwf (fun k _ => rfl)]
  rfl

theorem dig_not_delim {c : Char} (h : isDig c = true) :
    isJsonWs c = false ∧ c ≠ ']' ∧ c ≠ '}' ∧ c ≠ ',' := by
  refine ⟨?_, ?_, ?_, ?_⟩
  · simp only [isJsonWs, Bool.or_eq_false_iff, decide_eq_false_iff_not]
    refine ⟨⟨⟨?_, ?_⟩, ?_⟩, ?_⟩ <;> (rintro rfl; exact absurd h (by decide))
  all_goals (rintro rfl; exact absurd h (by decide))

theorem decDigits_head_dig (n : Nat) : ∃ c t, decDigits n = c :: t ∧ isDig c = true := by
  match hd : decDigits n with
  | [] => exact absurd hd (decDigits_ne_nil n)
  | c :: t =>
    refine ⟨c, t, rfl, decDigits_all_dig n c ?_⟩
    rw [hd]
    exact List.mem_cons_self c t

theorem jdump_head (v : PyValue) (hwf : wfV v = true) :
    ∃ c t, jdumpVal v = c :: t ∧ isJsonWs c = false ∧ c ≠ ']' ∧ c ≠ '}' ∧ c ≠ ',' := by
  cases v with
  | pynone => exact ⟨'n', _, rfl, by decide, by decide, by decide, by decide⟩
  | bool b =>
    cases b with
    | true => exact ⟨'t', _, rfl, by decide, by decide, by decide, by decide⟩
    | false => exact ⟨'f', _, rfl, by decide, by decide, by decide, by decide⟩
  | int i =>
    by_cases hneg : i < 0
    · refine ⟨'-', decDigits i.natAbs, ?_, by decide, by decide, by decide, by decide⟩
      show intChars i = _
      simp [intChars, hneg]
    · obtain ⟨c, t, hct, hdig⟩ := decDigits_head_dig i.natAbs
      obtain ⟨hws, hb, hbr, hcm⟩ := dig_not_delim hdig
      refine ⟨c, t, ?_, hws, hb, hbr, hcm⟩
      show intChars i = _
      simp [intChars, hneg, hct]
  | str s => exact ⟨'"', _, rfl, by decide, by decide, by decide, by decide⟩
  | float tok => exact absurd hwf (by simp [wfV])
  | floatConst fc =>
    cases fc with
    | inf => exact ⟨'I', _, rfl, by decide, by decide, by decide, by decide⟩
    | negInf => exact ⟨'-', _, rfl, by decide, by decide, by decide, by decide⟩
    | nan => exact ⟨'N', _, rfl, by decide, by decide, by decide, by decide⟩
  | list xs => exact ⟨'[', _, rfl, by decide, by decide, by decide, by decide⟩
  | dict xs => exact ⟨'{', _, rfl, by decide, by decide, by decide, by decide⟩

theorem skipWs_jdump (v : PyValue) (hwf : wfV v = true) (x : List Char) :
    skipWs (jdumpVal v ++ x) = jdumpVal v ++ x := by
  obtain ⟨c, t, hct, hws, _, _, _⟩ := jdump_head v hwf
  rw [hct, List.cons_append, skipWs_not_ws hws]

theorem jdump_len_pos (v : PyValue) (hwf : wfV v = true) : 1 ≤ (jdumpVal v).length := by
  obtain ⟨c, t, hct, _, _, _, _⟩ := jdump_head v hwf
  rw [hct]
  simp

theorem scanValue_numeric_pos (f : Nat) (c : Char) (t : List Char) (hd : isDig c = true) :
    scanValue (f + 1) (c :: t) = scanNumber (c :: t) := by
  have h1 : c ≠ '"' := by rintro rfl; exact absurd hd (by decide)
  have h2 : c ≠ '{' := by rintro rfl; exact absurd hd (by decide)
  have h3 : c ≠ '[' := by rintro rfl; exact absurd hd (by decide)
  have h4 : c ≠ 'n' := by rintro rfl; exact absurd hd (by decide)
  have h5 : c ≠ 't' := by rintro rfl; exact absurd hd (by decide)
  have h6 : c ≠ 'f' := by rintro rfl; exact absurd hd (by decide)
  have h7 : c ≠ 'N' := by rintro rfl; exact absurd hd (by decide)
  have h8 : c ≠ 'I' := by rintro rfl; exact absurd hd (by decide)
  have h9 : c ≠ '-' := by rintro rfl; exact absurd hd (by decide)
  simp [scanValue, h1, h2, h3, h4, h5, h6, h7, h8, h9, hd]

theorem scanValue_numeric_neg (f : Nat) (d : Char) (t : List Char) (hd : isDig d = true) :
    scanValue (f + 1) ('-' :: d :: t) = scanNumber ('-' :: d :: t) := by
  have hI : d ≠ 'I' := by rintro rfl; exact absurd hd (by decide)
  simp [scanValue, hI, List.take]

theorem scanValue_list_cons (f : Nat) (c : Char) (t : List Char)
    (hws : isJsonWs c = false) (hc : c ≠ ']') :
    scanValue (f + 1) ('[' :: c :: t) =
      match scanItems f (c :: t) with
      | some (vs, r) => some (.list vs, r)
      | none => none := by
  have hstep : scanValue (f + 1) ('[' :: c :: t) =
      match skipWs (c :: t) with
      | ']' :: r2 => some (.list .nil, r2)
      | r2 =>
        match scanItems f r2 with
        | some (vs, r3) => some (.list vs, r3)
        | none => none := by
    simp [scanValue]
  rw [hstep, skipWs_not_ws hws]
  split
  · rename_i heq
    injection heq with hh _
    exact absurd hh hc
  · rfl

theorem scanValue_dict_cons (f : Nat) (c : Char) (t : List Char)
    (hws : isJsonWs c = false) (hc : c ≠ '}') :
    scanValue (f + 1) ('{' :: c :: t) =
      match scanMembers f (c :: t) with
      | some (ps, r) => some (.dict (dictBuild ps), r)
      | none => none := by
  have hstep : scanValue (f + 1) ('{' :: c :: t) =
      match skipWs (c :: t) with
      | '}' :: r2 => some (.dict .nil, r2)
      | r2 =>
        match scanMembers f r2 with
        | some (ps, r3) => some (.dict (dictBuild ps), r3)
        | none => none := by
    simp [scanValue]
  rw [hstep, skipWs_not_ws hws]
  split
  · rename_i heq
    injection heq with hh _
    exact absurd hh hc
  · rfl

theorem jdumpItems_head (v : PyValue) (xs : PyList) (hwf : wfV v = true) :
    ∃ c t, jdumpItems (.cons v xs) = c :: t ∧ isJsonWs c = false ∧ c ≠ ']' := by
  obtain ⟨c, t, hct, hws, hbr, _, _⟩ := jdump_head v hwf
  cases xs with
  | nil => exact ⟨c, t, by rw [jdumpItems, hct], hws, hbr⟩
  | cons w ys =>
    exact ⟨c, t ++ ',' :: ' ' :: jdumpItems (.cons w ys),
      by rw [jdumpItems, hct, List.cons_append], hws, hbr⟩

theorem jdumpItems_split (v : PyValue) (xs : PyList) :
    jdumpItems (.cons v xs) = jdumpVal v ++ itemsSep xs := by
  cases xs with
  | nil => rw [jdumpItems, itemsSep, List.append_nil]
  | cons w ys => rw [jdumpItems, itemsSep]

theorem jdumpMembers_split (k : String) (v : PyValue) (xs : PyDict) :
    jdumpMembers (.cons k v xs)
      = quoteString k ++ ':' :: ' ' :: (jdumpVal v ++ membersSep xs) := by
  cases xs with
  | nil => rw [jdumpMembers, membersSep, List.append_nil]
  | cons k' v' ys =>
    rw [jdumpMembers, membersSep]
    simp [List.append_assoc]

theorem skipWs_members (k' : String) (v' : PyValue) (ys : PyDict) (x : List Char) :
    skipWs (jdumpMembers (.cons k' v' ys) ++ x) = jdumpMembers (.cons k' v' ys) ++ x := by
  rw [jdumpMembers_split, quoteString]
  simp only [List.cons_append, List.append_assoc]
  exact skipWs_not_ws (by decide) _

mutual
theorem rtValue : ∀ (v : PyValue) (fuel : Nat) (rest : List Char),
    wfV v = true → (jdumpVal v).length < fuel → numStop rest = true →
    scanValue fuel (jdumpVal v ++ rest) = some (v, rest)
  | v, 0, _, _, hf, _ => by omega
  | .pynone, fuel + 1, rest, _, _, _ => by
    show scanValue (fuel + 1) (['n', 'u', 'l', 'l'] ++ rest) = _
    simp [scanValue]
  | .bool true, fuel + 1, rest, _, _, _ => by
    show scanValue (fuel + 1) (['t', 'r', 'u', 'e'] ++ rest) = _
    simp [scanValue]
  | .bool false, fuel + 1, rest, _, _, _ => by
    show scanValue (fuel + 1) (['f', 'a', 'l', 's', 'e'] ++ rest) = _
    simp [scanValue]
  | .floatConst .nan, fuel + 1, rest, _, _, _ => by
    show scanValue (fuel + 1) (['N', 'a', 'N'] ++ rest) = _
    simp [scanValue]
  | .floatConst .inf, fuel + 1, rest, _, _, _ => by
    show scanValue (fuel + 1) (['I', 'n', 'f', 'i', 'n', 'i', 't', 'y'] ++ rest) = _
    simp [scanValue]
  | .floatConst .negInf, fuel + 1, rest, _, _, _ => by
    show scanValue (fuel + 1) (['-', 'I', 'n', 'f', 'i', 'n', 'i', 't', 'y'] ++ rest) = _
    simp [scanValue, List.take]
  | .float tok, _, _, hwf, _, _ => by simp [wfV] at hwf
  | .int i, fuel + 1, rest, _, _, hr => by
    by_cases hneg : i < 0
    · have hi : intChars i = '-' :: decDigits i.natAbs := by rw [intChars, if_pos hneg]
      obtain ⟨d, t, hdt, hdig⟩ := decDigits_head_dig i.natAbs
      have harg : jdumpVal (.int i) ++ rest = '-' :: d :: (t ++ rest) := by
        show intChars i ++ rest = _
        rw [hi, hdt]
        simp
      have hnum := scanNumber_intChars i rest hr
      rw [show intChars i ++ rest = '-' :: d :: (t ++ rest) from by rw [hi, hdt]; simp] at hnum
      rw [harg, scanValue_numeric_neg fuel d (t ++ rest) hdig, hnum]
    · have hi : intChars i = decDigits i.natAbs := by rw [intChars, if_neg hneg]
      obtain ⟨d, t, hdt, hdig⟩ := decDigits_head_dig i.natAbs
      have harg : jdumpVal (.int i) ++ rest = d :: (t ++ rest) := by
        show intChars i ++ rest = _
        rw [hi, hdt]
        simp
      have hnum := scanNumber_intChars i rest hr
      rw [show intChars i ++ rest = d :: (t ++ rest) from by rw [hi, hdt]; simp] at hnum
      rw [harg, scanValue_numeric_pos fuel d (t ++ rest) hdig, hnum]
  | .str s, fuel + 1, rest, _, _, _ => by
    have harg : jdumpVal (.str s) ++ rest = '"' :: (escapeAll s.data ++ '"' :: rest) := by
      show quoteString s ++ rest = _
      rw [quoteString]
      simp
    rw [harg]
    simp [scanValue, scanString_escapeAll]
  | .list .nil, fuel + 1, rest, _, _, _ => by
    have harg : jdumpVal (.list .nil) ++ rest = '[' :: ']' :: rest := by
      show ('[' :: (jdumpItems .nil ++ [']'])) ++ rest = _
      rw [jdumpItems]
      simp
    rw [harg]
    simp [scanValue, skipWs, isJsonWs]
  | .list (.cons v xs), fuel + 1, rest, hwf, hf, _ => by
    have hwf2 : wfV v = true ∧ wfL xs = true := by
      simpa [wfV, wfL, Bool.and_eq_true] using hwf
    obtain ⟨c, t, hct, hws, hbr⟩ := jdumpItems_head v xs hwf2.1
    have harg : jdumpVal (.list (.cons v xs)) ++ rest
        = '[' :: c :: (t ++ ']' :: rest) := by
      show ('[' :: (jdumpItems (.cons v xs) ++ [']'])) ++ rest = _
      rw [hct]
      simp
    have hlen : (jdumpItems (.cons v xs)).length + 1 < fuel := by
      have hl : (jdumpVal (.list (.cons v xs))).length
          = (jdumpItems (.cons v xs)).length + 2 := by
        show ('[' :: (jdumpItems (.cons v xs) ++ [']'])).length = _
        simp
      omega
    have hit := rtItems v xs fuel rest (by simp [wfL, hwf2.1, hwf2.2]) hlen
    rw [hct] at hit
    simp only [List.cons_append] at hit
    rw [harg, scanValue_list_cons fuel c _ hws hbr, hit]
  | .dict .nil, fuel + 1, rest, _, _, _ => by
    have harg : jdumpVal (.dict .nil) ++ rest = '{' :: '}' :: rest := by
      show ('{' :: (jdumpMembers .nil ++ ['}'])) ++ rest = _
      rw [jdumpMembers]
      simp
    rw [harg]
    simp [scanValue, skipWs, isJsonWs]
  | .dict (.cons k v xs), fuel + 1, rest, hwf, hf, _ => by
    have hwfd : wfD (.cons k v xs) = true := by simpa [wfV] using hwf
    have harg : jdumpVal (.dict (.cons k v xs)) ++ rest
        = '{' :: '"' :: ((escapeAll k.data ++ ['"']) ++
            (':' :: ' ' :: (jdumpVal v ++ membersSep xs) ++ '}' :: rest)) := by
      show ('{' :: (jdumpMembers (.cons k v xs) ++ ['}'])) ++ rest = _
      rw [jdumpMembers_split, quoteString]
      simp
    have hlen : (jdumpMembers (.cons k v xs)).length + 1 < fuel := by
      have hl : (jdumpVal (.dict (.cons k v xs))).length
          = (jdumpMembers (.cons k v xs)).length + 2 := by
        show ('{' :: (jdumpMembers (.cons k v xs) ++ ['}'])).length = _
        simp
      omega
    have hmem := rtMembers k v xs fuel rest hwfd hlen
    rw [jdumpMembers_split, quoteString] at hmem
    simp only [List.cons_append, List.append_assoc] at hmem
    rw [harg, scanValue_dict_cons fuel '"' _ (by decide) (by decide)]
    simp only [List.cons_append, List.append_assoc]
    rw [hmem]
    simp [dictBuild_wf _ hwfd]
  termination_by v _ _ _ _ _ => sizeOf v

theorem rtItems : ∀ (v : PyValue) (xs : PyList) (fuel : Nat) (rest : List Char),
    wfL (.cons v xs) = true → (jdumpItems (.cons v xs)).length + 1 < fuel →
    scanItems fuel (jdumpItems (.cons v xs) ++ ']' :: rest) = some (.cons v xs, rest)
  | v, xs, 0, _, _, hf => by omega
  | v, .nil, fuel + 1, rest, hwf, hf => by
    have hwfv : wfV v = true := by simpa [wfL, Bool.and_eq_true] using hwf
    have hlen : (jdumpVal v).length < fuel := by
      have hl : (jdumpItems (.cons v .nil)).length = (jdumpVal v).length := by
        rw [jdumpItems]
      omega
    have hv := rtValue v fuel (']' :: rest) hwfv hlen rfl
    rw [jdumpItems]
    simp only [scanItems]
    simp only [hv]
    simp [skipWs, isJsonWs]
  | v, .cons w ys, fuel + 1, rest, hwf, hf => by
    have hwf3 : wfV v = true ∧ wfV w = true ∧ wfL ys = true := by
      simpa [wfL, Bool.and_eq_true, and_assoc] using hwf
    have hflen : (jdumpVal v).length + 2 + (jdumpItems (.cons w ys)).length + 1 < fuel + 1 := by
      have hl : (jdumpItems (.cons v (.cons w ys))).length
          = (jdumpVal v).length + 2 + (jdumpItems (.cons w ys)).length := by
        rw [jdumpItems]
        simp
        omega
      omega
    have harg : jdumpItems (.cons v (.cons w ys)) ++ ']' :: rest
        = jdumpVal v ++ (',' :: ' ' :: (jdumpItems (.cons w ys) ++ ']' :: rest)) := by
      rw [jdumpItems]
      simp
    have hv := rtValue v fuel (',' :: ' ' :: (jdumpItems (.cons w ys) ++ ']' :: rest))
      hwf3.1 (by omega) rfl
    have htail := rtItems w ys fuel rest (by simp [wfL, hwf3.2.1, hwf3.2.2]) (by omega)
    obtain ⟨c2, t2, hct2, hws2, _⟩ := jdumpItems_head w ys hwf3.2.1
    have hskip : skipWs (jdumpItems (.cons w ys) ++ ']' :: rest)
        = jdumpItems (.cons w ys) ++ ']' :: rest := by
      rw [hct2, List.cons_append]
      exact skipWs_not_ws hws2 _
    have hskipSp : skipWs (' ' :: (jdumpItems (.cons w ys) ++ ']' :: rest))
        = jdumpItems (.cons w ys) ++ ']' :: rest := by
      have hstep : skipWs (' ' :: (jdumpItems (.cons w ys) ++ ']' :: rest))
          = skipWs (jdumpItems (.cons w ys) ++ ']' :: rest) := by
        simp [skipWs, isJsonWs]
      rw [hstep, hskip]
    rw [harg]
    simp only [scanItems]
    simp [hv, skipWs, isJsonWs, hskipSp, hskip, htail]
  termination_by v xs _ _ _ _ => sizeOf v + sizeOf xs

theorem rtMembers : ∀ (k : String) (v : PyValue) (xs : PyDict) (fuel : Nat) (rest : List Char),
    wfD (.cons k v xs) = true → (jdumpMembers (.cons k v xs)).length + 1 < fuel →
    scanMembers fuel (jdumpMembers (.cons k v xs) ++ '}' :: rest) = some (.cons k v xs, rest)
  | k, v, xs, 0, _, _, hf => by omega
  | k, v, .nil, fuel + 1, rest, hwf, hf => by
    have hwfv : wfV v = true := by
      simp only [wfD, Bool.and_eq_true] at hwf
      exact hwf.1.2
    have hq : 2 ≤ (quoteString k).length := by
      rw [quoteString]
      simp
    have hlen : (jdumpVal v).length < fuel := by
      have hl : (jdumpMembers (.cons k v .nil)).length
          = (quoteString k).length + 2 + (jdumpVal v).length := by
        rw [jdumpMembers_split, membersSep]
        simp
        omega
      omega
    have hv := rtValue v fuel ('}' :: rest) hwfv hlen rfl
    have harg : jdumpMembers (.cons k v .nil) ++ '}' :: rest
        = '"' :: (escapeAll k.data ++ '"' :: (':' :: ' ' :: (jdumpVal v ++ '}' :: rest))) := by
      rw [jdumpMembers_split, membersSep, quoteString]
      simp
    rw [harg]
    simp only [scanMembers]
    simp [scanString_escapeAll, skipWs, isJsonWs, skipWs_jdump v hwfv, hv]
  | k, v, .cons k' v' ys, fuel + 1, rest, hwf, hf => by
    have hwfp : wfV v = true ∧ wfD (.cons k' v' ys) = true := by
      simp only [wfD, Bool.and_eq_true] at hwf ⊢
      exact ⟨hwf.1.2, hwf.2⟩
    have hq : 2 ≤ (quoteString k).length := by
      rw [quoteString]
      simp
    have hflen : (quoteString k).length + 2 + (jdumpVal v).length + 2 +
        (jdumpMembers (.cons k' v' ys)).length + 1 < fuel + 1 := by
      have hl : (jdumpMembers (.cons k v (.cons k' v' ys))).length
          = (quoteString k).length + 2 + (jdumpVal v).length + 2 +
            (jdumpMembers (.cons k' v' ys)).length := by
        rw [jdumpMembers_split, membersSep]
        simp
        omega
      omega
    have hv := rtValue v fuel
      (',' :: ' ' :: (jdumpMembers (.cons k' v' ys) ++ '}' :: rest)) hwfp.1 (by omega) rfl
    have htail := rtMembers k' v' ys fuel rest hwfp.2 (by omega)
    have harg : jdumpMembers (.cons k v (.cons k' v' ys)) ++ '}' :: rest
        = '"' :: (escapeAll k.data ++ '"' :: (':' :: ' ' :: (jdumpVal v ++
            ',' :: ' ' :: (jdumpMembers (.cons k' v' ys) ++ '}' :: rest)))) := by
      rw [jdumpMembers_split, membersSep, quoteString]
      simp
    rw [harg]
    simp only [scanMembers]
    simp [scanString_escapeAll, skipWs, isJsonWs, skipWs_jdump v hwfp.1, hv,
      skipWs_members, htail]
  termination_by _ v xs _ _ _ _ => sizeOf v + sizeOf xs
end

/-- The round-trip heart of the store: `json.loads(json.dumps(v)) == v`
for every well-formed value. -/
theorem jsonParse_jsonDumps (v : PyValue) (hwf : wfV v = true) :
    jsonParse (jsonDumps v) = some v := by
  obtain ⟨c, t, hct, hws, _, _, _⟩ := jdump_head v hwf
  have hskip : skipWs (jdumpVal v) = jdumpVal v := by
    rw [hct]
    exact skipWs_not_ws hws t
  have hrv := rtValue v ((jdumpVal v).length + 1) [] hwf (by omega) rfl
  rw [List.append_nil] at hrv
  have hdata : (jsonDumps v).data = jdumpVal v := rfl
  rw [jsonParse, hdata, hskip, hrv]
  rfl

/-! ## Config-table algebra

Small facts about `lookupConfig`/`upsertConfig`, and the characterization
of the bootstrap import as a fold of upserts, leading to its
idempotence. -/

theorem lookupConfig_upsert_self (t : ConfigTable) (k : String) (s : String) :
    lookupConfig (upsertConfig t k s) k = some s := by
  induction t with
  | nil => simp [upsertConfig, lookupConfig]
  | cons p rest ih =>
    by_cases h : p.1 = k
    · simp [upsertConfig, h, lookupConfig]
    · simp [upsertConfig, h, lookupConfig, ih]

theorem lookupConfig_upsert_ne (t : ConfigTable) {k' k : String} (s : String) (h : k' ≠ k) :
    lookupConfig (upsertConfig t k' s) k = lookupConfig t k := by
  induction t with
  | nil => simp [upsertConfig, lookupConfig, h]
  | cons p rest ih =>
    by_cases hp : p.1 = k'
    · simp [upsertConfig, hp, lookupConfig, h]
    · simp [upsertConfig, hp, lookupConfig, ih]

theorem upsertConfig_noop : ∀ (t : ConfigTable) (k s : String),
    lookupConfig t k = some s → upsertConfig t k s = t
  | [], k, s, h => by simp [lookupConfig] at h
  | (k', v') :: rest, k, s, h => by
    by_cases hp : k' = k
    · rw [lookupConfig, if_pos hp] at h
      injection h with hv
      rw [upsertConfig, if_pos hp, hp, hv]
    · rw [lookupConfig, if_neg hp] at h
      rw [upsertConfig, if_neg hp, upsertConfig_noop rest k s h]

theorem upsertConfig_collapse : ∀ (t : ConfigTable) (k s' s : String),
    upsertConfig (upsertConfig t k s') k s = upsertConfig t k s
  | [], k, s', s => by simp [upsertConfig]
  | (k', v') :: rest, k, s', s => by
    by_cases hp : k' = k
    · rw [upsertConfig, if_pos hp, upsertConfig, if_pos rfl, upsertConfig, if_pos hp]
    · rw [upsertConfig, if_neg hp, upsertConfig, if_neg hp, upsertConfig, if_neg hp,
        upsertConfig_collapse rest k s' s]

theorem upsertConfig_comm_present : ∀ (t : ConfigTable) (k k2 s s2 : String), k ≠ k2 →
    (lookupConfig t k).isSome →
    upsertConfig (upsertConfig t k s) k2 s2 = upsertConfig (upsertConfig t k2 s2) k s
  | [], k, k2, s, s2, _, hpres => by simp [lookupConfig] at hpres
  | (k', v') :: rest, k, k2, s, s2, h, hpres => by
    have h2 : k2 ≠ k := fun he => h he.symm
    by_cases hp : k' = k
    · have hp2 : k' ≠ k2 := by rw [hp]; exact h
      rw [upsertConfig, if_pos hp, upsertConfig, if_neg h, upsertConfig, if_neg hp2,
        upsertConfig, if_pos hp]
    · rw [lookupConfig, if_neg hp] at hpres
      rw [upsertConfig, if_neg hp]
      by_cases hq : k' = k2
      · rw [upsertConfig, if_pos hq, upsertConfig, if_pos hq, upsertConfig, if_neg h2]
      · rw [upsertConfig, if_neg hq, upsertConfig, if_neg hq, upsertConfig, if_neg hp,
          upsertConfig_comm_present rest k k2 s s2 h hpres]

theorem lookupConfig_upsert_isSome (t : ConfigTable) (k k2 : String) (s2 : String)
    (h : (lookupConfig t k).isSome) : (lookupConfig (upsertConfig t k2 s2) k).isSome := by
  by_cases he : k2 = k
  · rw [he, lookupConfig_upsert_self]
    rfl
  · rw [lookupConfig_upsert_ne t s2 he]
    exact h

theorem applyPairs_cons (k : String) (s : String) (ps : List (String × String))
    (t : ConfigTable) :
    applyPairs ((k, s) :: ps) t = applyPairs ps (upsertConfig t k s) := rfl

theorem lookupConfig_applyPairs : ∀ (ps : List (String × String)) (t : ConfigTable)
    (k : String), lookupConfig (applyPairs ps t) k =
      match lastWrite ps k with
      | some s => some s
      | none => lookupConfig t k
  | [], t, k => rfl
  | (k1, s1) :: ps, t, k => by
    rw [applyPairs_cons, lookupConfig_applyPairs ps (upsertConfig t k1 s1) k, lastWrite]
    match hlw : lastWrite ps k with
    | some s => rfl
    | none =>
      by_cases hk : k1 = k
      · subst hk
        simp [lookupConfig_upsert_self]
      · simp [hk, lookupConfig_upsert_ne t s1 hk]

theorem lookupConfig_applyPairs_isSome (ps : List (String × String)) (t : ConfigTable)
    (k : String) (h : (lookupConfig t k).isSome) :
    (lookupConfig (applyPairs ps t) k).isSome := by
  rw [lookupConfig_applyPairs]
  match lastWrite ps k with
  | some s => rfl
  | none => exact h

theorem applyPairs_overwrite : ∀ (ps : List (String × String)) (X : ConfigTable)
    (k s : String), (lastWrite ps k).isSome → (lookupConfig X k).isSome →
    applyPairs ps (upsertConfig X k s) = applyPairs ps X
  | [], _, k, _, hlw, _ => by simp [lastWrite] at hlw
  | (k1, s1) :: ps, X, k, s, hlw, hpres => by
    by_cases hk1 : k1 = k
    · subst hk1
      rw [applyPairs_cons, upsertConfig_collapse, applyPairs_cons]
    · have hlw' : (lastWrite ps k).isSome := by
        rw [lastWrite] at hlw
        match hl : lastWrite ps k with
        | some s2 => rfl
        | none =>
          rw [hl] at hlw
          simp [hk1] at hlw
      have hne : k ≠ k1 := fun he => hk1 he.symm
      rw [applyPairs_cons, upsertConfig_comm_present X k k1 s s1 hne hpres,
        applyPairs_cons,
        applyPairs_overwrite ps (upsertConfig X k1 s1) k s hlw'
          (lookupConfig_upsert_isSome X k k1 s1 hpres)]

theorem applyPairs_idem : ∀ (ps : List (String × String)) (t : ConfigTable),
    applyPairs ps (applyPairs ps t) = applyPairs ps t
  | [], t => rfl
  | (k, s) :: ps, t => by
    rw [applyPairs_cons, applyPairs_cons]
    match hlw : lastWrite ps k with
    | some s'' =>
      have hpres : (lookupConfig (applyPairs ps (upsertConfig t k s)) k).isSome :=
        lookupConfig_applyPairs_isSome ps _ k (by rw [lookupConfig_upsert_self]; rfl)
      rw [applyPairs_overwrite ps _ k s (by rw [hlw]; rfl) hpres,
        applyPairs_idem ps (upsertConfig t k s)]
    | none =>
      have hlook : lookupConfig (applyPairs ps (upsertConfig t k s)) k = some s := by
        rw [lookupConfig_applyPairs, hlw, lookupConfig_upsert_self]
      rw [upsertConfig_noop _ k s hlook, applyPairs_idem ps (upsertConfig t k s)]

theorem load_env_file_fold : ∀ (entries : List (String × EnvManager.EnvVal)) (db : DB)
    (tbl : ConfigTable), db.config = some tbl →
    EnvManager.load_env_file (some entries) db
      = some { db with config := some (applyPairs (eligPairs entries) tbl) }
  | [], db, tbl, h => by
    show some db = _
    cases db with
    | mk c m =>
      cases h
      rfl
  | (k, e) :: entries, db, tbl, h => by
    have hstep : EnvManager.load_env_file (some ((k, e) :: entries)) db
        = (match EnvManager.eligibleValue k e with
            | some v => EnvManager.set db k v
            | none => some db).bind
          (fun d => EnvManager.load_env_file (some entries) d) := by
      simp only [EnvManager.load_env_file, List.foldlM_cons]
      rfl
    rw [hstep]
    match he : EnvManager.eligibleValue k e with
    | none =>
      have helig : eligPairs ((k, e) :: entries) = eligPairs entries := by
        simp [eligPairs, List.filterMap_cons, he]
      show EnvManager.load_env_file (some entries) db = _
      rw [load_env_file_fold entries db tbl h, helig]
    | some v =>
      have hset : EnvManager.set db k v
          = some { db with config := some (upsertConfig tbl k (EnvManager.serializeValue v)) } := by
        rw [EnvManager.set, h]
      have helig : eligPairs ((k, e) :: entries)
          = (k, EnvManager.serializeValue v) :: eligPairs entries := by
        simp [eligPairs, List.filterMap_cons, he]
      rw [show (match (some v : Option PyValue) with
          | some v => EnvManager.set db k v
          | none => some db) = EnvManager.set db k v from rfl, hset]
      show EnvManager.load_env_file (some entries)
          { db with config := some (upsertConfig tbl k (EnvManager.serializeValue v)) } = _
      rw [load_env_file_fold entries
        { db with config := some (upsertConfig tbl k (EnvManager.serializeValue v)) }
        (upsertConfig tbl k (EnvManager.serializeValue v)) rfl, helig, applyPairs_cons]

/-! ## Module-table lemmas -/

theorem map_update_absent (tbl : List ModuleRow) (name : String) (b : Bool)
    (h : lookupModule tbl name = none) :
    tbl.map (fun row =>
      if row.module_name = name then { row with status := if b then 1 else 0 }
      else row) = tbl := by
  induction tbl with
  | nil => rfl
  | cons row rest ih =>
    rw [lookupModule] at h
    by_cases hr : row.module_name = name
    · rw [if_pos hr] at h
      exact absurd h (by simp)
    · rw [if_neg hr] at h
      simp only [List.map_cons, if_neg hr, ih h]

theorem any_eq_lookup_isSome (tbl : List ModuleRow) (name : String) :
    tbl.any (fun r => r.module_name == name) = (lookupModule tbl name).isSome := by
  induction tbl with
  | nil => rfl
  | cons row rest ih =>
    by_cases hr : row.module_name = name
    · simp [lookupModule, hr]
    · simp [lookupModule, hr, ih]

theorem lookupModule_filter_out (tbl : List ModuleRow) (name : String) :
    lookupModule (tbl.filter (fun r => r.module_name != name)) name = none := by
  induction tbl with
  | nil => rfl
  | cons row rest ih =>
    by_cases hr : row.module_name = name
    · simp [List.filter_cons, hr, ih]
    · simp [List.filter_cons, hr, lookupModule, ih]

theorem filter_out_idem (tbl : List ModuleRow) (name : String) :
    (tbl.filter (fun r => r.module_name != name)).filter (fun r => r.module_name != name)
      = tbl.filter (fun r => r.module_name != name) := by
  induction tbl with
  | nil => rfl
  | cons row rest ih =>
    by_cases hr : row.module_name = name
    · simp [List.filter_cons, hr, ih]
    · simp [List.filter_cons, hr, ih]

theorem lookupModule_upsert_self (tbl : List ModuleRow) (row : ModuleRow) :
    lookupModule (upsertModule tbl row) row.module_name = some row := by
  induction tbl with
  | nil => simp [upsertModule, lookupModule]
  | cons r rest ih =>
    by_cases hr : r.module_name = row.module_name
    · simp [upsertModule, hr, lookupModule]
    · simp [upsertModule, hr, lookupModule, ih]

/-- What `get` returns for a key right after a successful `set` of it: the
stored text decoded by `json.loads`, or the raw text when decoding
fails. -/
theorem get_after_set (db db' : DB) (k : String) (v : PyValue) (d : PyValue)
    (hset : EnvManager.set db k v = some db') :
    (EnvManager.get db' k d).2 =
      match jsonParse (EnvManager.serializeValue v) with
      | some w => w
      | none => .str (EnvManager.serializeValue v) := by
  match hc : db.config with
  | none =>
    rw [EnvManager.set, hc] at hset
    exact absurd hset (by simp)
  | some tbl =>
    rw [EnvManager.set, hc] at hset
    injection hset with hdb
    subst hdb
    show (EnvManager.get { db with config := some (upsertConfig tbl k _) } k d).2 = _
    rw [EnvManager.get]
    show (EnvManager.getDecoded (upsertConfig tbl k (EnvManager.serializeValue v)) k d) = _
    rw [EnvManager.getDecoded, lookupConfig_upsert_self]

/-! ## The claims -/

/-- C1 (counterexample): the string round-trip fails without a content
restriction.  Storing the plain string `"123"` and reading it back yields
the integer `123` (`json.loads("123")` succeeds), which is not equal —
structurally or by Python `==` — to the original string. -/
theorem C1_counterexample :
    EnvManager.set (EnvManager.init_db emptyDB) "k" (.str "123")
      = some ⟨some [("k", "123")], some []⟩ ∧
    (EnvManager.get ⟨some [("k", "123")], some []⟩ "k" .pynone).2 = .int 123 ∧
    PyValue.int 123 ≠ PyValue.str "123" ∧
    pyEq (.int 123) (.str "123") = false :=
  ⟨rfl, rfl, by simp, by simp [pyEq]⟩

/-- C1 (amended): for every key and every plain string whose content does
not parse as the structured text encoding (JSON), `set` then `get`
returns the string unchanged; a string that parses is returned as the
decoded value instead. -/
theorem C1_string_roundtrip (db db' : DB) (k s : String) (d : PyValue)
    (hset : EnvManager.set db k (.str s) = some db')
    (hparse : jsonParse s = none) :
    (EnvManager.get db' k d).2 = .str s := by
  rw [get_after_set db db' k (.str s) d hset]
  show (match jsonParse s with
    | some w => w
    | none => PyValue.str s) = _
  rw [hparse]

theorem C1_string_roundtrip_witness :
    (EnvManager.get ⟨some [("greeting", "hello")], some []⟩ "greeting" .pynone).2
      = .str "hello" :=
  C1_string_roundtrip (EnvManager.init_db emptyDB) _ "greeting" "hello" .pynone rfl rfl

/-- C2: attribute-style access for an unknown name with no stored value
returns Python `None` instead of signalling `AttributeError` — the
`except KeyError` arm of `__getattr__` is dead code because `get` returns
its default rather than raising `KeyError`. -/
theorem C2_getattr_returns_none :
    EnvManager.dunderGetattr (EnvManager.init_db emptyDB) "missing"
      = (EnvManager.init_db emptyDB, .value .pynone) := rfl

/-- C3: `get(k, D)` returns `D` when the key is absent, and when the
config table does not exist it recreates the schema, retries the read
once against the fresh table, and still returns `D` without raising. -/
theorem C3_get_default (k : String) (d : PyValue) :
    (∀ (db : DB) (tbl : ConfigTable), db.config = some tbl → lookupConfig tbl k = none →
      EnvManager.get db k d = (db, d)) ∧
    (∀ db : DB, db.config = none →
      EnvManager.get db k d = (EnvManager.init_db db, d)) := by
  constructor
  · intro db tbl h habs
    rw [EnvManager.get, h]
    show (db, EnvManager.getDecoded tbl k d) = _
    rw [EnvManager.getDecoded, habs]
  · intro db h
    rw [EnvManager.get, h]
    rfl

theorem C3_get_default_witness :
    EnvManager.get (EnvManager.init_db emptyDB) "missing" (.int 7)
      = (EnvManager.init_db emptyDB, .int 7) ∧
    EnvManager.get emptyDB "missing" (.int 7) = (EnvManager.init_db emptyDB, .int 7) :=
  ⟨(C3_get_default "missing" (.int 7)).1 (EnvManager.init_db emptyDB) [] rfl rfl,
   (C3_get_default "missing" (.int 7)).2 emptyDB rfl⟩

/-- C4 (counterexample): round-trip equality fails for a structured value
containing NaN.  `set(k, [nan])` stores `"[NaN]"`, `get(k)` decodes it to
a list holding NaN again — but that result is not Python-equal to the
original (`nan == nan` is `False`), so `get(k) == v` does not hold. -/
theorem C4_counterexample :
    EnvManager.set (EnvManager.init_db emptyDB) "k" (.list (.cons (.floatConst .nan) .nil))
      = some ⟨some [("k", "[NaN]")], some []⟩ ∧
    (EnvManager.get ⟨some [("k", "[NaN]")], some []⟩ "k" .pynone).2
      = .list (.cons (.floatConst .nan) .nil) ∧
    pyEq (.list (.cons (.floatConst .nan) .nil)) (.list (.cons (.floatConst .nan) .nil))
      = false :=
  ⟨rfl, rfl, by simp [pyEq, pyEqList]⟩

/-- C4 (amended): for every mapping or sequence value that is well formed
(unique dict keys, no finite-float tokens) — NaN-free values are then
also Python-equal — `set(k, v)` followed by `get(k)` returns exactly `v`:
encode on write (`json.dumps`), decode on read (`json.loads`). -/
theorem C4_container_roundtrip (db db' : DB) (k : String) (v : PyValue) (d : PyValue)
    (hc : isContainer v = true) (hwf : wfV v = true)
    (hset : EnvManager.set db k v = some db') :
    (EnvManager.get db' k d).2 = v := by
  rw [get_after_set db db' k v d hset]
  have hser : EnvManager.serializeValue v = jsonDumps v := by
    match v, hc with
    | .list xs, _ => rfl
    | .dict xs, _ => rfl
  rw [hser, jsonParse_jsonDumps v hwf]

theorem C4_container_roundtrip_witness :
    (EnvManager.get ⟨some [("k", "[1, \"a\"]")], some []⟩ "k" .pynone).2
      = .list (.cons (.int 1) (.cons (.str "a") .nil)) :=
  C4_container_roundtrip (EnvManager.init_db emptyDB) _ "k"
    (.list (.cons (.int 1) (.cons (.str "a") .nil))) .pynone rfl rfl rfl

/-- C5: a module with no record reads as enabled — `get_module_status`
returns `True` when the `SELECT` finds no row. -/
theorem C5_default_enabled (db : DB) (tbl : List ModuleRow) (m : String)
    (h : db.modules = some tbl) (habs : lookupModule tbl m = none) :
    EnvManager.get_module_status db m = some true := by
  rw [EnvManager.get_module_status, h]
  show some (match lookupModule tbl m with
    | some row => row.status != 0
    | none => true) = _
  rw [habs]

theorem C5_default_enabled_witness :
    EnvManager.get_module_status (EnvManager.init_db emptyDB) "nonexistent" = some true :=
  C5_default_enabled (EnvManager.init_db emptyDB) [] "nonexistent" rfl rfl

/-- C6: a status-only update for a name with no record is a no-op — the
`UPDATE` touches zero rows, creates nothing, and a subsequent status read
still reports the default `True`. -/
theorem C6_status_update_no_create (db : DB) (tbl : List ModuleRow) (m : String) (b : Bool)
    (h : db.modules = some tbl) (habs : lookupModule tbl m = none) :
    EnvManager.set_module_status db m b = some db ∧
    EnvManager.get_module_status db m = some true := by
  refine ⟨?_, C5_default_enabled db tbl m h habs⟩
  obtain ⟨c, mods⟩ := db
  cases h
  simp only [EnvManager.set_module_status]
  rw [map_update_absent tbl m b habs]

theorem C6_status_update_no_create_witness :
    EnvManager.set_module_status (EnvManager.init_db emptyDB) "nonexistent" false
      = some (EnvManager.init_db emptyDB) ∧
    EnvManager.get_module_status (EnvManager.init_db emptyDB) "nonexistent" = some true :=
  C6_status_update_no_create (EnvManager.init_db emptyDB) [] "nonexistent" false rfl rfl

/-- C7: `set_module` with the C7 descriptor then `get_module` returns
status `False`, version `"1.0"`, dependencies `["a", "b"]`, and the
omitted fields at their defaults: empty description and author, empty
optional-dependency list. -/
theorem C7_set_get_module (db : DB) (tbl : List ModuleRow) (m : String) (db' : DB)
    (h : db.modules = some tbl)
    (hset : EnvManager.set_module db m d7 = some db') :
    EnvManager.get_module db' m
      = some (some ⟨false, "1.0", "", "",
          .list (.cons (.str "a") (.cons (.str "b") .nil)), .list .nil⟩) := by
  obtain ⟨c, mods⟩ := db
  cases h
  rw [EnvManager.set_module] at hset
  injection hset with hdb
  subst hdb
  have hl : lookupModule (upsertModule tbl (EnvManager.descriptorRow m d7)) m
      = some (EnvManager.descriptorRow m d7) :=
    lookupModule_upsert_self tbl (EnvManager.descriptorRow m d7)
  simp only [EnvManager.get_module, hl]
  rfl

theorem C7_set_get_module_witness :
    EnvManager.get_module
      ⟨some [], some [⟨"m", 0, "1.0", "", "", "[\"a\", \"b\"]", "[]"⟩]⟩ "m"
      = some (some ⟨false, "1.0", "", "",
          .list (.cons (.str "a") (.cons (.str "b") .nil)), .list .nil⟩) :=
  C7_set_get_module (EnvManager.init_db emptyDB) [] "m" _ rfl rfl

/-- C8: `remove_module` reports whether a record existed (and removes
every row for the name); an immediate second call removes nothing and
returns `False`. -/
theorem C8_remove_module (db : DB) (tbl : List ModuleRow) (m : String)
    (db' : DB) (existed : Bool) (h : db.modules = some tbl)
    (hrem : EnvManager.remove_module db m = some (db', existed)) :
    (existed = true ↔ (lookupModule tbl m).isSome = true) ∧
    EnvManager.get_module db' m = some none ∧
    EnvManager.remove_module db' m = some (db', false) := by
  obtain ⟨c, mods⟩ := db
  cases h
  rw [EnvManager.remove_module] at hrem
  injection hrem with hpair
  have hdb : db' = ⟨c, some (tbl.filter (fun r => r.module_name != m))⟩ := by
    have := congrArg Prod.fst hpair
    exact this.symm
  have hex : existed = tbl.any (fun r => r.module_name == m) := by
    have := congrArg Prod.snd hpair
    exact this.symm
  subst hdb
  refine ⟨?_, ?_, ?_⟩
  · rw [hex, any_eq_lookup_isSome]
  · simp only [EnvManager.get_module, lookupModule_filter_out]
  · rw [EnvManager.remove_module]
    simp only [filter_out_idem]
    have hany : (tbl.filter (fun r => r.module_name != m)).any
        (fun r => r.module_name == m) = false := by
      rw [any_eq_lookup_isSome, lookupModule_filter_out]
      rfl
    rw [hany]

theorem C8_remove_module_witness :
    (true = true ↔ (lookupModule [(⟨"m", 1, "", "", "", "[]", "[]"⟩ : ModuleRow)] "m").isSome = true) ∧
    EnvManager.get_module (⟨some [], some []⟩ : DB) "m" = some none ∧
    EnvManager.remove_module (⟨some [], some []⟩ : DB) "m"
      = some ((⟨some [], some []⟩ : DB), false) :=
  C8_remove_module ⟨some [], some [⟨"m", 1, "", "", "", "[]", "[]"⟩]⟩
    [⟨"m", 1, "", "", "", "[]", "[]"⟩] "m" ⟨some [], some []⟩ true rfl rfl

/-- C9: running the bootstrap import twice with the same source leaves
the config table exactly as one run leaves it — every eligible pair is
re-written with the identical serialized value. -/
theorem C9_bootstrap_idempotent (src : Option (List (String × EnvManager.EnvVal)))
    (db db' : DB) (tbl : ConfigTable) (h : db.config = some tbl)
    (h1 : EnvManager.load_env_file src db = some db') :
    EnvManager.load_env_file src db' = some db' := by
  cases src with
  | none =>
    rw [EnvManager.load_env_file] at h1
    injection h1 with hdb
    subst hdb
    rfl
  | some entries =>
    rw [load_env_file_fold entries db tbl h] at h1
    injection h1 with hdb
    subst hdb
    rw [load_env_file_fold entries _ (applyPairs (eligPairs entries) tbl) rfl,
      applyPairs_idem]

theorem C9_bootstrap_idempotent_witness :
    EnvManager.load_env_file
      (some [("A", .val (.int 1)), ("__private", .val (.int 2)), ("f", .other)])
      ⟨some [("A", "1")], some []⟩
      = some ⟨some [("A", "1")], some []⟩ :=
  C9_bootstrap_idempotent
    (some [("A", .val (.int 1)), ("__private", .val (.int 2)), ("f", .other)])
    (EnvManager.init_db emptyDB) ⟨some [("A", "1")], some []⟩ [] rfl rfl

/-- C10 (counterexample): the claim that every float round-trips with
its numeric type fails at `float("nan")`: `str(nan)` is `"nan"`, which
`json.loads` rejects, so `get` returns the *string* `"nan"`. -/
theorem C10_counterexample :
    EnvManager.set (EnvManager.init_db emptyDB) "k" (.floatConst .nan)
      = some ⟨some [("k", "nan")], some []⟩ ∧
    (EnvManager.get ⟨some [("k", "nan")], some []⟩ "k" .pynone).2 = .str "nan" ∧
    PyValue.str "nan" ≠ PyValue.floatConst .nan ∧
    pyEq (.str "nan") (.floatConst .nan) = false :=
  ⟨rfl, rfl, by simp, by simp [pyEq]⟩

/-- C10 (amended): scalars round-trip according to whether their `str()`
form parses as JSON — integers come back as integers; booleans come back
as the strings `str(True)`/`str(False)`; the non-finite floats, whose
`str()` (`inf`, `-inf`, `nan`) does not parse, come back as those
strings. -/
theorem C10_scalar_roundtrip (db : DB) (k : String) (d : PyValue) :
    (∀ (n : Int) (db' : DB), EnvManager.set db k (.int n) = some db' →
      (EnvManager.get db' k d).2 = .int n) ∧
    (∀ (b : Bool) (db' : DB), EnvManager.set db k (.bool b) = some db' →
      (EnvManager.get db' k d).2 = .str (if b then "True" else "False")) ∧
    (∀ (fc : FloatConst) (db' : DB), EnvManager.set db k (.floatConst fc) = some db' →
      (EnvManager.get db' k d).2 = .str (floatConstStr fc)) := by
  refine ⟨?_, ?_, ?_⟩
  · intro n db' hset
    rw [get_after_set db db' k (.int n) d hset]
    have hser : EnvManager.serializeValue (.int n) = jsonDumps (.int n) := rfl
    rw [hser, jsonParse_jsonDumps (.int n) rfl]
  · intro b db' hset
    rw [get_after_set db db' k (.bool b) d hset]
    cases b with
    | true => rfl
    | false => rfl
  · intro fc db' hset
    rw [get_after_set db db' k (.floatConst fc) d hset]
    cases fc with
    | inf => rfl
    | negInf => rfl
    | nan => rfl

theorem C10_scalar_roundtrip_witness :
    (EnvManager.get ⟨some [("k", "5")], some []⟩ "k" .pynone).2 = .int 5 ∧
    (EnvManager.get ⟨some [("k", "True")], some []⟩ "k" .pynone).2 = .str "True" ∧
    (EnvManager.get ⟨some [("k", "inf")], some []⟩ "k" .pynone).2 = .str "inf" :=
  ⟨(C10_scalar_roundtrip (EnvManager.init_db emptyDB) "k" .pynone).1 5 _ rfl,
   (C10_scalar_roundtrip (EnvManager.init_db emptyDB) "k" .pynone).2.1 true _ rfl,
   (C10_scalar_roundtrip (EnvManager.init_db emptyDB) "k" .pynone).2.2 .inf _ rfl⟩
